import Mathlib

/-!
Verification of the glTF scene-viewer entry module (src/main.rs).

Strings are modelled as `List Char`.  `usize` is modelled as `Nat` with the
64-bit bound made explicit where Rust's parser would overflow.
-/

namespace SceneViewer

/-- Rust `str::split('#')`: splits on every `'#'`, keeping empty segments;
the empty string yields one empty segment. -/
def splitHash : List Char → List (List Char)
  | [] => [[]]
  | c :: rest =>
    if c = '#' then
      [] :: splitHash rest
    else
      match splitHash rest with
      | [] => [[c]]
      | s :: ss => (c :: s) :: ss

/-- Rust `[&str]::join("#")`: concatenates the segments with `'#'` between
consecutive ones. -/
def joinHash : List (List Char) → List Char
  | [] => []
  | [s] => s
  | s :: ss => s ++ '#' :: joinHash ss

/-- The literal `"Scene"`. -/
def sceneChars : List Char := ['S', 'c', 'e', 'n', 'e']

/-- Rust `str::strip_prefix("Scene")`: removes the leading `"Scene"` if
present, otherwise `none`. -/
def stripScene (s : List Char) : Option (List Char) :=
  if sceneChars.isPrefixOf s then some (s.drop sceneChars.length) else none

/-- Numeric value of a digit string, most significant digit first. -/
def digitsVal (ds : List Char) : Nat :=
  ds.foldl (fun acc c => acc * 10 + (c.toNat - 48)) 0

/-- Rust `str::parse::<usize>()` on a 64-bit target: an optional leading
`'+'`, then one or more ASCII digits, failing on the empty string, on any
non-digit, and on overflow past `2 ^ 64 - 1`. -/
def parseUsize (s : List Char) : Option Nat :=
  let digits := if s.head? = some '+' then s.tail else s
  if digits = [] then none
  else if digits.all Char.isDigit then
    if digitsVal digits < 2 ^ 64 then some (digitsVal digits) else none
  else none

/-- `parse_scene` from src/main.rs lines 59-72: if the string contains `'#'`
and its last `'#'`-delimited segment is `"Scene"` followed by a parsable
`usize`, return the re-joined leading segments and that index; otherwise
return the whole string with index 0. -/
def parse_scene (scene_path : List Char) : List Char × Nat :=
  if scene_path.contains '#' then
    let gltf_and_scene := splitHash scene_path
    match gltf_and_scene.getLast? with
    | some last =>
      match (stripScene last).bind parseUsize with
      | some index => (joinHash gltf_and_scene.dropLast, index)
      | none => (scene_path, 0)
    | none => (scene_path, 0)
  else (scene_path, 0)

/-- Default asset path used by `setup` (src/main.rs line 77) when no CLI
argument is given. -/
def default_scene_path : List Char := "assets/rotary_pendulum.glb".toList

/-- The path `setup` (src/main.rs lines 74-81) feeds to `parse_scene`:
the first CLI argument when present, else the bundled sample model. -/
def setupScenePath (arg : Option (List Char)) : List Char :=
  arg.getD default_scene_path

/-- Last `'#'`-delimited segment of a string (total: `splitHash` is never
empty). -/
def lastSegment (s : List Char) : List Char :=
  ((splitHash s).getLast?).getD []

/-- Spec-side predicate, stated from the words of the specification: the
segment is the literal `"Scene"` followed by one or more ASCII digits. -/
def sceneDigitsSpec (seg : List Char) : Bool :=
  sceneChars.isPrefixOf seg &&
    !(seg.drop sceneChars.length).isEmpty &&
    (seg.drop sceneChars.length).all Char.isDigit

/-- Canonical decimal rendering, digit for a value below ten. -/
def digitChar : Nat → Char
  | 0 => '0'
  | 1 => '1'
  | 2 => '2'
  | 3 => '3'
  | 4 => '4'
  | 5 => '5'
  | 6 => '6'
  | 7 => '7'
  | 8 => '8'
  | _ => '9'

/-- Canonical base-10 rendering of a natural number, no sign and no leading
zeros. -/
def decimal (n : Nat) : List Char :=
  if n < 10 then [digitChar n]
  else decimal (n / 10) ++ [digitChar (n % 10)]
decreasing_by
  simp_wf
  omega

theorem splitHash_ne_nil (l : List Char) : splitHash l ≠ [] := by
  cases l with
  | nil => simp [splitHash]
  | cons c rest =>
    simp only [splitHash]
    split
    · simp
    · split <;> simp

theorem joinHash_splitHash (l : List Char) : joinHash (splitHash l) = l := by
  induction l with
  | nil => rfl
  | cons c rest ih =>
    by_cases hc : c = '#'
    · subst hc
      rcases hr : splitHash rest with _ | ⟨s, ss⟩
      · exact absurd hr (splitHash_ne_nil rest)
      · rw [hr] at ih
        simp only [splitHash, if_pos rfl, hr, joinHash, ih, List.nil_append]
    · rcases hr : splitHash rest with _ | ⟨s, ss⟩
      · exact absurd hr (splitHash_ne_nil rest)
      · rw [hr] at ih
        cases ss with
        | nil =>
          simp only [joinHash] at ih
          simp only [splitHash, if_neg hc, hr, joinHash, ih]
        | cons t ts =>
          simp only [splitHash, if_neg hc, hr, joinHash, List.cons_append] at ih ⊢
          rw [ih]

theorem splitHash_append (p q : List Char) :
    splitHash (p ++ '#' :: q) = splitHash p ++ splitHash q := by
  induction p with
  | nil => simp [splitHash]
  | cons c p ih =>
    by_cases hc : c = '#'
    · subst hc
      simp [splitHash, ih]
    · rcases hp : splitHash p with _ | ⟨s, ss⟩
      · exact absurd hp (splitHash_ne_nil p)
      · have ih2 : splitHash (p ++ '#' :: q) = s :: (ss ++ splitHash q) := by
          rw [ih, hp, List.cons_append]
        simp only [List.cons_append, splitHash, if_neg hc, List.append_eq, ih2, hp]

theorem splitHash_no_hash (q : List Char) (h : q.contains '#' = false) :
    splitHash q = [q] := by
  induction q with
  | nil => rfl
  | cons c q ih =>
    simp only [List.contains_cons, Bool.or_eq_false_iff, beq_eq_false_iff_ne, ne_eq] at h
    have hc : ¬ c = '#' := fun hcc => h.1 hcc.symm
    simp only [splitHash, if_neg hc, ih h.2]

theorem contains_append_hash (p q : List Char) :
    (p ++ '#' :: q).contains '#' = true := by
  induction p with
  | nil => simp [List.contains_cons]
  | cons c t ih => simp [List.contains_cons, ih]

theorem getLast?_splitHash (s : List Char) :
    (splitHash s).getLast? = some (lastSegment s) := by
  unfold lastSegment
  rcases hg : (splitHash s).getLast? with _ | l
  · rw [List.getLast?_eq_none_iff] at hg
    exact absurd hg (splitHash_ne_nil s)
  · rfl

theorem isDigit_ne_plus {c : Char} (h : c.isDigit = true) : c ≠ '+' := by
  intro hc
  subst hc
  exact absurd h (by decide)

theorem head_ne_plus {l : List Char} (h : l.all Char.isDigit = true) :
    l.head? ≠ some '+' := by
  cases l with
  | nil => simp
  | cons c t =>
    simp only [List.all_cons, Bool.and_eq_true] at h
    simp only [List.head?_cons, ne_eq, Option.some.injEq]
    exact isDigit_ne_plus h.1

theorem contains_hash_of_digits {l : List Char} (h : l.all Char.isDigit = true) :
    l.contains '#' = false := by
  induction l with
  | nil => rfl
  | cons c t ih =>
    simp only [List.all_cons, Bool.and_eq_true] at h
    have hc : ('#' == c) = false := by
      rw [beq_eq_false_iff_ne]
      intro hcc
      subst hcc
      exact absurd h.1 (by decide)
    simp only [List.contains_cons, hc, Bool.false_or, ih h.2]

theorem parseUsize_digits {ds : List Char} (hne : ds ≠ [])
    (hdig : ds.all Char.isDigit = true) (hlt : digitsVal ds < 2 ^ 64) :
    parseUsize ds = some (digitsVal ds) := by
  have hhead : ¬ ds.head? = some '+' := head_ne_plus hdig
  simp only [parseUsize, if_neg hhead, if_neg hne, hdig, if_pos hlt, if_true]

theorem stripScene_append (ds : List Char) :
    stripScene (sceneChars ++ ds) = some ds := by
  unfold stripScene
  rw [if_pos, List.drop_left]
  rw [List.isPrefixOf_iff_prefix]
  exact List.prefix_append _ _

theorem parse_scene_split (s : List Char) (segs : List (List Char)) (ds : List Char)
    (hc : s.contains '#' = true)
    (hs : splitHash s = segs ++ [sceneChars ++ ds])
    (hne : ds ≠ []) (hdig : ds.all Char.isDigit = true)
    (hlt : digitsVal ds < 2 ^ 64) :
    parse_scene s = (joinHash segs, digitsVal ds) := by
  have hlast : (splitHash s).getLast? = some (sceneChars ++ ds) := by
    rw [hs]
    exact List.getLast?_concat _
  have hdrop : (splitHash s).dropLast = segs := by
    rw [hs]
    exact List.dropLast_concat
  simp only [parse_scene, hc, if_true, hlast, stripScene_append, Option.some_bind,
    parseUsize_digits hne hdig hlt, hdrop]

theorem digitChar_spec (n : Nat) (h : n < 10) :
    (digitChar n).isDigit = true ∧ (digitChar n).toNat - 48 = n := by
  interval_cases n <;> exact ⟨by decide, by decide⟩

theorem decimal_ne_nil (n : Nat) : decimal n ≠ [] := by
  unfold decimal
  split <;> simp

theorem decimal_all_digits (n : Nat) : (decimal n).all Char.isDigit = true := by
  induction n using Nat.strong_induction_on with
  | _ n ih =>
    unfold decimal
    split
    · rename_i h
      simp [List.all_cons, (digitChar_spec n h).1]
    · rename_i h
      have h10 : n / 10 < n := by omega
      simp [List.all_append, ih _ h10, (digitChar_spec (n % 10) (by omega)).1]

theorem digitsVal_append_digit (l : List Char) (c : Char) :
    digitsVal (l ++ [c]) = 10 * digitsVal l + (c.toNat - 48) := by
  unfold digitsVal
  rw [List.foldl_append]
  simp [Nat.mul_comm]

theorem digitsVal_decimal (n : Nat) : digitsVal (decimal n) = n := by
  induction n using Nat.strong_induction_on with
  | _ n ih =>
    unfold decimal
    split
    · rename_i h
      show digitsVal [digitChar n] = n
      unfold digitsVal
      simp [(digitChar_spec n h).2]
    · rename_i h
      rw [digitsVal_append_digit, ih _ (by omega), (digitChar_spec (n % 10) (by omega)).2]
      omega

/-- C1 (amended): if the input has no `'#'`, or its last `'#'`-delimited
segment does not consist of `"Scene"` followed by a string that Rust's
`usize` parser accepts, `parse_scene` returns the whole input unchanged with
index 0. -/
theorem parse_scene_id_of_no_scene_suffix (s : List Char)
    (h : s.contains '#' = false ∨ (stripScene (lastSegment s)).bind parseUsize = none) :
    parse_scene s = (s, 0) := by
  rcases h with h | h
  · simp only [parse_scene, h, Bool.false_eq_true, if_false]
  · by_cases hc : s.contains '#' = true
    · simp only [parse_scene, hc, if_true, getLast?_splitHash, h]
    · rw [Bool.not_eq_true] at hc
      simp only [parse_scene, hc, Bool.false_eq_true, if_false]

/-- C1 witness: the boundary input `"model.glb#"` is returned whole with
index 0. -/
theorem parse_scene_id_witness :
    parse_scene ("model.glb#".toList) = ("model.glb#".toList, 0) :=
  parse_scene_id_of_no_scene_suffix _ (Or.inr (by decide))

/-- C1 counterexample: the last segment of `"a#Scene+5"` is not `"Scene"`
followed by digits (there is a `'+'`), yet `parse_scene` does not return the
input unchanged with index 0: Rust's `usize` parser accepts a leading `'+'`,
so the result is `("a", 5)`. -/
theorem parse_scene_plus_sign_counterexample :
    sceneDigitsSpec (lastSegment ("a#Scene+5".toList)) = false ∧
      parse_scene ("a#Scene+5".toList) ≠ ("a#Scene+5".toList, 0) := by
  decide

/-- C4: for an input containing `'#'` whose last `'#'`-delimited segment is
`"Scene"` followed by a nonempty digit string whose value fits in a 64-bit
`usize`, `parse_scene` returns the leading segments re-joined with `'#'`
together with that value. -/
theorem parse_scene_scene_suffix (s : List Char) (segs : List (List Char)) (ds : List Char)
    (hc : s.contains '#' = true)
    (hs : splitHash s = segs ++ [sceneChars ++ ds])
    (hne : ds ≠ []) (hdig : ds.all Char.isDigit = true)
    (hlt : digitsVal ds < 2 ^ 64) :
    parse_scene s = (joinHash segs, digitsVal ds) :=
  parse_scene_split s segs ds hc hs hne hdig hlt

/-- C4 witness: `"a#b#Scene5"` parses to `("a#b", 5)`. -/
theorem parse_scene_scene_suffix_witness :
    parse_scene ("a#b#Scene5".toList) = ("a#b".toList, 5) := by
  have h := parse_scene_scene_suffix ("a#b#Scene5".toList) [['a'], ['b']] ['5']
    (by decide) (by decide) (by decide) (by decide) (by decide)
  rw [h]
  decide

/-- C9: with no CLI argument, `setup` uses the bundled sample model path,
and `parse_scene` returns that path unchanged with scene index 0. -/
theorem setup_default_path :
    setupScenePath none = default_scene_path ∧
      parse_scene default_scene_path = (default_scene_path, 0) := by
  exact ⟨rfl, by decide⟩

/-- C10: appending `"#Scene"` and the canonical decimal rendering of any
`n` that fits in a 64-bit `usize` to any string `p` (even one containing
`'#'` or ending in a Scene-like segment) and parsing recovers `(p, n)`. -/
theorem parse_scene_roundtrip (p : List Char) (n : Nat) (h : n < 2 ^ 64) :
    parse_scene (p ++ '#' :: (sceneChars ++ decimal n)) = (p, n) := by
  have hd := decimal_all_digits n
  have hq : (sceneChars ++ decimal n).contains '#' = false := by
    have h2 := contains_hash_of_digits hd
    simp only [sceneChars, List.cons_append, List.nil_append, List.contains_cons, h2]
    decide
  have hs : splitHash (p ++ '#' :: (sceneChars ++ decimal n))
      = splitHash p ++ [sceneChars ++ decimal n] := by
    rw [splitHash_append, splitHash_no_hash _ hq]
  have hmain := parse_scene_split _ (splitHash p) (decimal n)
    (contains_append_hash _ _) hs (decimal_ne_nil n) hd
    (by rw [digitsVal_decimal]; exact h)
  rw [hmain, joinHash_splitHash, digitsVal_decimal]

/-- C10 witness: for `p = "a#Scene7"` (which contains `'#'` and ends in a
Scene-like segment) and `n = 3`, the round trip holds. -/
theorem parse_scene_roundtrip_witness :
    parse_scene (("a#Scene7".toList) ++ '#' :: (sceneChars ++ decimal 3))
      = ("a#Scene7".toList, 3) :=
  parse_scene_roundtrip _ 3 (by decide)

/-! Geometry of src/main.rs lines 83-152.  The `f32` values of the code are
idealised as real numbers; `glam` vectors and matrices are modelled
componentwise.  `Mat3A` is stored by columns (`x_axis`, `y_axis`, `z_axis`)
as in `glam`. -/

@[ext]
structure Vec3 where
  x : ℝ
  y : ℝ
  z : ℝ

namespace Vec3

def splat (v : ℝ) : Vec3 := ⟨v, v, v⟩

def add (a b : Vec3) : Vec3 := ⟨a.x + b.x, a.y + b.y, a.z + b.z⟩

def sub (a b : Vec3) : Vec3 := ⟨a.x - b.x, a.y - b.y, a.z - b.z⟩

def hmul (a b : Vec3) : Vec3 := ⟨a.x * b.x, a.y * b.y, a.z * b.z⟩

noncomputable def vmin (a b : Vec3) : Vec3 := ⟨min a.x b.x, min a.y b.y, min a.z b.z⟩

noncomputable def vmax (a b : Vec3) : Vec3 := ⟨max a.x b.x, max a.y b.y, max a.z b.z⟩

def dot (a b : Vec3) : ℝ := a.x * b.x + a.y * b.y + a.z * b.z

/-- Euclidean length, `glam Vec3A::length`. -/
noncomputable def norm (a : Vec3) : ℝ := Real.sqrt (dot a a)

end Vec3

/-- Componentwise order on vectors. -/
def vecLE (a b : Vec3) : Prop := a.x ≤ b.x ∧ a.y ≤ b.y ∧ a.z ≤ b.z

/-- Linear part of an affine transform, by columns as in `glam::Mat3A`. -/
structure Mat3 where
  x_axis : Vec3
  y_axis : Vec3
  z_axis : Vec3

/-- Matrix-vector product, `glam Mat3A * Vec3A`. -/
def Mat3.mulVec (m : Mat3) (v : Vec3) : Vec3 :=
  ⟨m.x_axis.x * v.x + m.y_axis.x * v.y + m.z_axis.x * v.z,
   m.x_axis.y * v.x + m.y_axis.y * v.y + m.z_axis.y * v.z,
   m.x_axis.z * v.x + m.y_axis.z * v.y + m.z_axis.z * v.z⟩

/-- Bevy `GlobalTransform` (an `Affine3A`): linear part plus translation. -/
structure GlobalTransform where
  matrix3 : Mat3
  translation : Vec3

/-- Bevy `GlobalTransform::transform_point`. -/
def GlobalTransform.transform_point (t : GlobalTransform) (p : Vec3) : Vec3 :=
  Vec3.add (t.matrix3.mulVec p) t.translation

/-- Bevy `GlobalTransform::radius_vec3a`: length of the linear part applied
to the extents, an upper bound for a bounding-sphere radius. -/
noncomputable def GlobalTransform.radius_vec3a (t : GlobalTransform) (extents : Vec3) : ℝ :=
  Vec3.norm (t.matrix3.mulVec extents)

/-- Bevy `render::primitives::Aabb`: center and half extents. -/
structure Aabb where
  center : Vec3
  half_extents : Vec3

/-- Bevy `Aabb::min`. -/
def Aabb.min (a : Aabb) : Vec3 := Vec3.sub a.center a.half_extents

/-- Bevy `Aabb::max`. -/
def Aabb.max (a : Aabb) : Vec3 := Vec3.add a.center a.half_extents

/-- Bevy `render::primitives::Sphere`. -/
structure Sphere where
  center : Vec3
  radius : ℝ

/-- Bevy `impl From<Sphere> for Aabb`: cube of half extent `radius`. -/
def aabbFromSphere (s : Sphere) : Aabb := ⟨s.center, Vec3.splat s.radius⟩

/-- Lines 104-108: world-space box of one mesh, via the sphere round trip. -/
noncomputable def worldAabb (transform : GlobalTransform) (aabb : Aabb) : Aabb :=
  aabbFromSphere
    ⟨transform.transform_point aabb.center, transform.radius_vec3a aabb.half_extents⟩

/-- `f32::MAX` as a real number. -/
def FMAX : ℝ := 2 ^ 128 - 2 ^ 104

/-- Lines 97-111: fold of the per-mesh world boxes into scene-wide min and
max corners, starting from the `f32::MAX` / `f32::MIN` sentinels. -/
noncomputable def sceneBounds (meshes : List (GlobalTransform × Aabb)) : Vec3 × Vec3 :=
  meshes.foldl
    (fun acc m => (Vec3.vmin acc.1 (worldAabb m.1 m.2).min,
                   Vec3.vmax acc.2 (worldAabb m.1 m.2).max))
    (Vec3.splat FMAX, Vec3.splat (-FMAX))

/-- The two fields of the `SceneHandle` resource read or written by
`setup_scene_after_load` (the rest of the resource does not affect it). -/
structure SceneHandle where
  is_loaded : Bool
  has_light : Bool

/-- Entities the system can spawn in one frame. -/
inductive Spawn where
  | camera (translation : Vec3)
  | light (shadows_enabled : Bool)
  | grid

/-- Observable effect of one invocation of the system: the new `Local<bool>`
flag, the new resource state, the spawned entities in order, and the
computed scene bounds when the body ran. -/
structure StepResult where
  setup : Bool
  scene : SceneHandle
  spawns : List Spawn
  bounds : Option (Vec3 × Vec3)

/-- `setup_scene_after_load` from src/main.rs lines 83-152, one frame.  Note
the code sets the `setup` flag to `true` before the missing-Aabb early
return. -/
noncomputable def setup_scene_after_load (setup : Bool) (scene_handle : SceneHandle)
    (meshes : List (GlobalTransform × Option Aabb)) : StepResult :=
  if scene_handle.is_loaded && !setup then
    if meshes.any (fun m => m.2.isNone) then
      { setup := true, scene := scene_handle, spawns := [], bounds := none }
    else
      let bounds := sceneBounds (meshes.filterMap (fun m => m.2.map (fun a => (m.1, a))))
      { setup := true
        scene := if scene_handle.has_light then scene_handle
                 else { scene_handle with has_light := true }
        spawns := [Spawn.camera ⟨10, 10, 10⟩]
          ++ (if scene_handle.has_light then [] else [Spawn.light false])
          ++ [Spawn.grid]
        bounds := some bounds }
  else
    { setup := setup, scene := scene_handle, spawns := [], bounds := none }

/-- Per-frame input: the load flag as set by the scene-viewer plugin, and
the mesh query results. -/
structure Frame where
  is_loaded : Bool
  meshes : List (GlobalTransform × Option Aabb)

/-- The sequence of spawn lists produced by running the system over a frame
trace, threading the `Local<bool>` flag and the light flag. -/
noncomputable def runAux (setup : Bool) (has_light : Bool) : List Frame → List (List Spawn)
  | [] => []
  | f :: fs =>
    let r := setup_scene_after_load setup ⟨f.is_loaded, has_light⟩ f.meshes
    r.spawns :: runAux r.setup r.scene.has_light fs

/-- Identity transform. -/
def idT : GlobalTransform := ⟨⟨⟨1, 0, 0⟩, ⟨0, 1, 0⟩, ⟨0, 0, 1⟩⟩, ⟨0, 0, 0⟩⟩

/-- Unit box at the origin with half extents one. -/
def unitAabb : Aabb := ⟨⟨0, 0, 0⟩, ⟨1, 1, 1⟩⟩

theorem runAux_true (hl : Bool) (frames : List Frame) :
    runAux true hl frames = frames.map (fun _ => []) := by
  induction frames generalizing hl with
  | nil => rfl
  | cons f fs ih =>
    have hstep : setup_scene_after_load true ⟨f.is_loaded, hl⟩ f.meshes
        = ⟨true, ⟨f.is_loaded, hl⟩, [], none⟩ := by
      simp [setup_scene_after_load]
    simp only [runAux, hstep, List.map_cons, ih]

theorem countP_map_nil (l : List Frame) :
    ((l.map fun _ => ([] : List Spawn)).countP fun s => !s.isEmpty) = 0 := by
  induction l with
  | nil => rfl
  | cons a t ih => simp [List.countP_cons, ih]

theorem step_setup_true (scene : SceneHandle)
    (meshes : List (GlobalTransform × Option Aabb)) (hload : scene.is_loaded = true) :
    (setup_scene_after_load false scene meshes).setup = true := by
  rw [setup_scene_after_load]
  simp only [hload, Bool.not_false, Bool.and_self, if_true]
  split <;> rfl

theorem runAux_countP (setup hl : Bool) (frames : List Frame) :
    ((runAux setup hl frames).countP fun s => !s.isEmpty) ≤ 1 := by
  induction frames generalizing setup hl with
  | nil => simp [runAux]
  | cons f fs ih =>
    cases setup with
    | true =>
      rw [runAux_true, countP_map_nil]
      omega
    | false =>
      simp only [runAux]
      cases hl1 : f.is_loaded with
      | false =>
        have hstep : setup_scene_after_load false ⟨false, hl⟩ f.meshes
            = ⟨false, ⟨false, hl⟩, [], none⟩ := by
          rw [setup_scene_after_load]
          simp
        rw [hstep]
        simpa [List.countP_cons] using ih false hl
      | true =>
        have hsetup := step_setup_true ⟨true, hl⟩ f.meshes rfl
        rw [List.countP_cons, hsetup, runAux_true, countP_map_nil]
        split <;> omega

/-- C3: across every frame trace, the setup body runs at most once: with the
already-run flag set every invocation is a no-op (no spawns on any frame),
and from a clear flag at most one frame produces any spawns. -/
theorem setup_body_at_most_once (setup hl : Bool) (frames : List Frame) :
    runAux true hl frames = frames.map (fun _ => []) ∧
      ((runAux setup hl frames).countP fun s => !s.isEmpty) ≤ 1 :=
  ⟨runAux_true hl frames, runAux_countP setup hl frames⟩

/-- Frame whose single mesh instance still lacks its Aabb. -/
def pendingFrame : Frame := ⟨true, [(idT, none)]⟩

/-- Frame whose single mesh instance has its Aabb. -/
def readyFrame : Frame := ⟨true, [(idT, some unitAabb)]⟩

/-- C2 (code bug): the claimed retry never happens.  On a trace whose first
load-complete frame has a mesh without an Aabb and whose second frame has
all Aabbs, the code spawns nothing on either frame - the flag was already
consumed - although the second frame alone would have performed the full
setup. -/
theorem setup_never_retries :
    runAux false false [pendingFrame, readyFrame] = [[], []] ∧
      (setup_scene_after_load false ⟨true, false⟩ readyFrame.meshes).spawns ≠ [] := by
  constructor
  · have h1 : setup_scene_after_load false ⟨true, false⟩ pendingFrame.meshes
        = ⟨true, ⟨true, false⟩, [], none⟩ := by
      rw [setup_scene_after_load]
      simp [pendingFrame]
    have h2 : setup_scene_after_load true ⟨true, false⟩ readyFrame.meshes
        = ⟨true, ⟨true, false⟩, [], none⟩ := by
      rw [setup_scene_after_load]
      simp
    simp only [runAux, pendingFrame, h1, h2]
    rfl
  · rw [setup_scene_after_load]
    simp [readyFrame]

/-- C7: when the setup body runs, a directional light with shadows disabled
is spawned exactly when the has-light flag is false at that moment, lights
are only ever spawned with shadows disabled, and the flag is true
afterwards, so a default light is never spawned twice. -/
theorem light_spawn_iff (scene : SceneHandle) (meshes : List (GlobalTransform × Option Aabb))
    (hload : scene.is_loaded = true)
    (hready : (meshes.any fun m => m.2.isNone) = false) :
    (Spawn.light false ∈ (setup_scene_after_load false scene meshes).spawns
        ↔ scene.has_light = false)
      ∧ (∀ b, Spawn.light b ∈ (setup_scene_after_load false scene meshes).spawns → b = false)
      ∧ (setup_scene_after_load false scene meshes).scene.has_light = true := by
  rw [setup_scene_after_load]
  simp only [hload, Bool.not_false, Bool.and_self, if_true, hready, Bool.false_eq_true, if_false]
  cases hlight : scene.has_light <;>
    simp [hlight, List.mem_append, List.mem_cons]

/-- C7 witness: a freshly loaded scene without a light and with one ready
mesh gets the directional light. -/
theorem light_spawn_iff_witness :
    Spawn.light false ∈ (setup_scene_after_load false ⟨true, false⟩ [(idT, some unitAabb)]).spawns :=
  ((light_spawn_iff ⟨true, false⟩ [(idT, some unitAabb)] rfl rfl).1).mpr rfl

/-- C8: the spawned camera transform is the constant translation
`(10, 10, 10)`: any camera spawned by any invocation sits there, so two runs
differing only in their mesh instances place the camera identically - the
position does not depend on the computed bounding volume. -/
theorem camera_position_constant :
    (∀ (setup : Bool) (scene : SceneHandle) (meshes : List (GlobalTransform × Option Aabb))
        (v : Vec3), Spawn.camera v ∈ (setup_scene_after_load setup scene meshes).spawns →
          v = ⟨10, 10, 10⟩)
      ∧ (∀ (s1 s2 : Bool) (sc1 sc2 : SceneHandle)
          (m1 m2 : List (GlobalTransform × Option Aabb)) (v1 v2 : Vec3),
          Spawn.camera v1 ∈ (setup_scene_after_load s1 sc1 m1).spawns →
          Spawn.camera v2 ∈ (setup_scene_after_load s2 sc2 m2).spawns → v1 = v2) := by
  have hconst : ∀ (setup : Bool) (scene : SceneHandle)
      (meshes : List (GlobalTransform × Option Aabb)) (v : Vec3),
      Spawn.camera v ∈ (setup_scene_after_load setup scene meshes).spawns →
        v = ⟨10, 10, 10⟩ := by
    intro setup scene meshes v hv
    rw [setup_scene_after_load] at hv
    split at hv
    · split at hv
      · simp at hv
      · cases hlight : scene.has_light <;> simp [hlight] at hv <;> exact hv
    · simp at hv
  exact ⟨hconst, fun s1 s2 sc1 sc2 m1 m2 v1 v2 h1 h2 =>
    (hconst _ _ _ _ h1).trans (hconst _ _ _ _ h2).symm⟩

/-- C8 witness: a run with no mesh instances spawns the camera at
`(10, 10, 10)`, and a run with one mesh instance places it identically. -/
theorem camera_position_constant_witness :
    (⟨10, 10, 10⟩ : Vec3) = ⟨10, 10, 10⟩ :=
  camera_position_constant.2 false false ⟨true, false⟩ ⟨true, true⟩ []
    [(idT, some unitAabb)] ⟨10, 10, 10⟩ ⟨10, 10, 10⟩
    (by rw [setup_scene_after_load]; simp)
    (by rw [setup_scene_after_load]; simp)

/-- Corner of a box selected by a sign vector: center plus the
componentwise product of the signs with the half extents. -/
def corner (a : Aabb) (e : Vec3) : Vec3 := Vec3.add a.center (Vec3.hmul e a.half_extents)

theorem norm_nonneg (v : Vec3) : 0 ≤ v.norm := Real.sqrt_nonneg _

theorem FMAX_nonneg : (0 : ℝ) ≤ FMAX := by norm_num [FMAX]

theorem abs_comp_le_norm (v : Vec3) :
    |v.x| ≤ v.norm ∧ |v.y| ≤ v.norm ∧ |v.z| ≤ v.norm := by
  unfold Vec3.norm Vec3.dot
  refine ⟨?_, ?_, ?_⟩
  · rw [← Real.sqrt_mul_self_eq_abs]
    exact Real.sqrt_le_sqrt (by nlinarith [mul_self_nonneg v.y, mul_self_nonneg v.z])
  · rw [← Real.sqrt_mul_self_eq_abs]
    exact Real.sqrt_le_sqrt (by nlinarith [mul_self_nonneg v.x, mul_self_nonneg v.z])
  · rw [← Real.sqrt_mul_self_eq_abs]
    exact Real.sqrt_le_sqrt (by nlinarith [mul_self_nonneg v.x, mul_self_nonneg v.y])

theorem mulVec_add (m : Mat3) (u v : Vec3) :
    m.mulVec (Vec3.add u v) = Vec3.add (m.mulVec u) (m.mulVec v) := by
  apply Vec3.ext <;> simp [Mat3.mulVec, Vec3.add] <;> ring

theorem idT_mulVec (v : Vec3) : idT.matrix3.mulVec v = v := by
  apply Vec3.ext <;> simp [idT, Mat3.mulVec]

theorem idT_norm_preserving (v : Vec3) : (idT.matrix3.mulVec v).norm = v.norm := by
  rw [idT_mulVec]

theorem vecLE_trans {a b c : Vec3} (h1 : vecLE a b) (h2 : vecLE b c) : vecLE a c :=
  ⟨h1.1.trans h2.1, h1.2.1.trans h2.2.1, h1.2.2.trans h2.2.2⟩

theorem vecLE_refl (a : Vec3) : vecLE a a := ⟨le_refl _, le_refl _, le_refl _⟩

theorem vmin_le_left (a b : Vec3) : vecLE (Vec3.vmin a b) a :=
  ⟨min_le_left _ _, min_le_left _ _, min_le_left _ _⟩

theorem vmin_le_right (a b : Vec3) : vecLE (Vec3.vmin a b) b :=
  ⟨min_le_right _ _, min_le_right _ _, min_le_right _ _⟩

theorem left_le_vmax (a b : Vec3) : vecLE a (Vec3.vmax a b) :=
  ⟨le_max_left _ _, le_max_left _ _, le_max_left _ _⟩

theorem right_le_vmax (a b : Vec3) : vecLE b (Vec3.vmax a b) :=
  ⟨le_max_right _ _, le_max_right _ _, le_max_right _ _⟩

/-- The scene fold from an arbitrary accumulator, for induction. -/
noncomputable def sceneBoundsFrom (init : Vec3 × Vec3)
    (meshes : List (GlobalTransform × Aabb)) : Vec3 × Vec3 :=
  meshes.foldl
    (fun acc m => (Vec3.vmin acc.1 (worldAabb m.1 m.2).min,
                   Vec3.vmax acc.2 (worldAabb m.1 m.2).max))
    init

theorem sceneBounds_eq_from (meshes : List (GlobalTransform × Aabb)) :
    sceneBounds meshes = sceneBoundsFrom (Vec3.splat FMAX, Vec3.splat (-FMAX)) meshes := rfl

theorem sceneBoundsFrom_le (meshes : List (GlobalTransform × Aabb)) (init : Vec3 × Vec3) :
    (vecLE (sceneBoundsFrom init meshes).1 init.1 ∧ vecLE init.2 (sceneBoundsFrom init meshes).2)
      ∧ ∀ p ∈ meshes,
          vecLE (sceneBoundsFrom init meshes).1 (worldAabb p.1 p.2).min
            ∧ vecLE (worldAabb p.1 p.2).max (sceneBoundsFrom init meshes).2 := by
  induction meshes generalizing init with
  | nil =>
    refine ⟨⟨vecLE_refl _, vecLE_refl _⟩, ?_⟩
    intro p hp
    simp at hp
  | cons m ms ih =>
    have hstep : sceneBoundsFrom init (m :: ms)
        = sceneBoundsFrom (Vec3.vmin init.1 (worldAabb m.1 m.2).min,
            Vec3.vmax init.2 (worldAabb m.1 m.2).max) ms := rfl
    obtain ⟨⟨ha, hb⟩, hmem⟩ := ih (Vec3.vmin init.1 (worldAabb m.1 m.2).min,
      Vec3.vmax init.2 (worldAabb m.1 m.2).max)
    rw [hstep]
    refine ⟨⟨vecLE_trans ha (vmin_le_left _ _), vecLE_trans (left_le_vmax _ _) hb⟩, ?_⟩
    intro p hp
    rcases List.mem_cons.mp hp with hp | hp
    · subst hp
      exact ⟨vecLE_trans ha (vmin_le_right _ _), vecLE_trans (right_le_vmax _ _) hb⟩
    · exact hmem p hp

/-- C6 (amended): for every mesh instance and every world transform whose
linear part preserves Euclidean length (any rotation or reflection, with
arbitrary translation), the sphere-round-trip world box contains every
transformed corner of the local box, and the accumulated scene box contains
the world box of every instance. -/
theorem world_box_conservative (T : GlobalTransform) (a : Aabb) (e : Vec3)
    (hT : ∀ v, (T.matrix3.mulVec v).norm = v.norm)
    (hex : e.x = 1 ∨ e.x = -1) (hey : e.y = 1 ∨ e.y = -1) (hez : e.z = 1 ∨ e.z = -1)
    (meshes : List (GlobalTransform × Aabb)) (hm : (T, a) ∈ meshes) :
    (vecLE (worldAabb T a).min (T.transform_point (corner a e))
        ∧ vecLE (T.transform_point (corner a e)) (worldAabb T a).max)
      ∧ vecLE (sceneBounds meshes).1 (worldAabb T a).min
      ∧ vecLE (worldAabb T a).max (sceneBounds meshes).2 := by
  constructor
  · have hdot : Vec3.dot (Vec3.hmul e a.half_extents) (Vec3.hmul e a.half_extents)
        = Vec3.dot a.half_extents a.half_extents := by
      unfold Vec3.dot Vec3.hmul
      rcases hex with h1 | h1 <;> rcases hey with h2 | h2 <;> rcases hez with h3 | h3 <;>
        rw [h1, h2, h3] <;> ring
    have hnorm : (T.matrix3.mulVec (Vec3.hmul e a.half_extents)).norm
        = (T.matrix3.mulVec a.half_extents).norm := by
      rw [hT, hT]
      unfold Vec3.norm
      rw [hdot]
    have habs := abs_comp_le_norm (T.matrix3.mulVec (Vec3.hmul e a.half_extents))
    rw [hnorm] at habs
    obtain ⟨hbx, hby, hbz⟩ := habs
    rw [abs_le] at hbx hby hbz
    have hsplit : T.matrix3.mulVec (Vec3.add a.center (Vec3.hmul e a.half_extents))
        = Vec3.add (T.matrix3.mulVec a.center) (T.matrix3.mulVec (Vec3.hmul e a.half_extents)) :=
      mulVec_add _ _ _
    unfold corner GlobalTransform.transform_point
    rw [hsplit]
    unfold worldAabb aabbFromSphere Aabb.min Aabb.max GlobalTransform.transform_point
      GlobalTransform.radius_vec3a vecLE Vec3.add Vec3.sub Vec3.splat
    constructor
    · exact ⟨by dsimp only; linarith [hbx.1], by dsimp only; linarith [hby.1],
        by dsimp only; linarith [hbz.1]⟩
    · exact ⟨by dsimp only; linarith [hbx.2], by dsimp only; linarith [hby.2],
        by dsimp only; linarith [hbz.2]⟩
  · exact (sceneBoundsFrom_le meshes _).2 (T, a) hm

/-- C6 witness: identity transform (norm preserving), the `(+,+,+)` corner
of the unit box, and a one-mesh scene. -/
theorem world_box_conservative_witness :
    (vecLE (worldAabb idT unitAabb).min (idT.transform_point (corner unitAabb ⟨1, 1, 1⟩))
        ∧ vecLE (idT.transform_point (corner unitAabb ⟨1, 1, 1⟩)) (worldAabb idT unitAabb).max)
      ∧ vecLE (sceneBounds [(idT, unitAabb)]).1 (worldAabb idT unitAabb).min
      ∧ vecLE (worldAabb idT unitAabb).max (sceneBounds [(idT, unitAabb)]).2 :=
  world_box_conservative idT unitAabb ⟨1, 1, 1⟩ idT_norm_preserving
    (Or.inl rfl) (Or.inl rfl) (Or.inl rfl) [(idT, unitAabb)] (List.mem_singleton.mpr rfl)

/-- Shear transform: columns `(1,0,0)`, `(-1,1,0)`, `(0,0,1)`. -/
def shearT : GlobalTransform := ⟨⟨⟨1, 0, 0⟩, ⟨-1, 1, 0⟩, ⟨0, 0, 1⟩⟩, ⟨0, 0, 0⟩⟩

/-- C6 counterexample: under the shear with columns `(1,0,0)`, `(-1,1,0)`,
`(0,0,1)` - a legitimate `GlobalTransform` linear part - the transformed
`(+,-,+)` corner of the unit box lands at `x = 2`, outside the computed
world box, whose half extent is only `sqrt 2`: the claim is false for
arbitrary world transforms. -/
theorem world_box_shear_counterexample :
    ¬ (vecLE (worldAabb shearT unitAabb).min (shearT.transform_point (corner unitAabb ⟨1, -1, 1⟩))
        ∧ vecLE (shearT.transform_point (corner unitAabb ⟨1, -1, 1⟩))
            (worldAabb shearT unitAabb).max) := by
  intro h
  obtain ⟨-, h2⟩ := h
  obtain ⟨h2x, -, -⟩ := h2
  have hx : (shearT.transform_point (corner unitAabb ⟨1, -1, 1⟩)).x = 2 := by
    simp only [shearT, unitAabb, corner, GlobalTransform.transform_point, Mat3.mulVec,
      Vec3.add, Vec3.hmul]
    norm_num
  have hmax : (worldAabb shearT unitAabb).max.x = Real.sqrt 2 := by
    simp only [worldAabb, aabbFromSphere, Aabb.max, GlobalTransform.transform_point,
      GlobalTransform.radius_vec3a, Mat3.mulVec, Vec3.add, Vec3.norm, Vec3.dot, Vec3.splat,
      shearT, unitAabb]
    norm_num
  rw [hx, hmax] at h2x
  have hlt : Real.sqrt 2 < 2 := (Real.sqrt_lt' (by norm_num)).mpr (by norm_num)
  linarith

/-- C5 (amended): for a single mesh instance under the identity transform
(with coordinates inside the `f32::MAX` sentinel range), the computed world
box is the cube centered at the local center whose half extent in every
axis is the Euclidean norm of the local half extents; it contains the local
box, but is not the local box itself in general. -/
theorem single_identity_mesh_bounds (c he : Vec3)
    (hlo : vecLE (Vec3.sub c (Vec3.splat (Vec3.norm he))) (Vec3.splat FMAX))
    (hhi : vecLE (Vec3.splat (-FMAX)) (Vec3.add c (Vec3.splat (Vec3.norm he)))) :
    sceneBounds [(idT, ⟨c, he⟩)]
      = (Vec3.sub c (Vec3.splat (Vec3.norm he)), Vec3.add c (Vec3.splat (Vec3.norm he)))
      ∧ vecLE (Vec3.sub c (Vec3.splat (Vec3.norm he))) (Aabb.min ⟨c, he⟩)
      ∧ vecLE (Aabb.max ⟨c, he⟩) (Vec3.add c (Vec3.splat (Vec3.norm he))) := by
  obtain ⟨hl1, hl2, hl3⟩ := hlo
  obtain ⟨hh1, hh2, hh3⟩ := hhi
  simp only [Vec3.sub, Vec3.splat] at hl1 hl2 hl3
  simp only [Vec3.add, Vec3.splat] at hh1 hh2 hh3
  have hw : worldAabb idT ⟨c, he⟩ = ⟨c, Vec3.splat (Vec3.norm he)⟩ := by
    have hc : idT.transform_point c = c := by
      unfold GlobalTransform.transform_point
      rw [idT_mulVec]
      apply Vec3.ext <;> simp [Vec3.add, idT]
    have hrad : idT.radius_vec3a he = Vec3.norm he := by
      unfold GlobalTransform.radius_vec3a
      rw [idT_mulVec]
    simp [worldAabb, aabbFromSphere, hc, hrad]
  have hfold : sceneBounds [(idT, ⟨c, he⟩)]
      = (Vec3.vmin (Vec3.splat FMAX) (worldAabb idT ⟨c, he⟩).min,
         Vec3.vmax (Vec3.splat (-FMAX)) (worldAabb idT ⟨c, he⟩).max) := rfl
  obtain ⟨hax, hay, haz⟩ := abs_comp_le_norm he
  refine ⟨?_, ?_, ?_⟩
  · rw [hfold, hw]
    refine Prod.ext ?_ ?_
    · refine Vec3.ext ?_ ?_ ?_
      · simp only [Vec3.vmin, Aabb.min, Vec3.sub, Vec3.splat]
        exact min_eq_right hl1
      · simp only [Vec3.vmin, Aabb.min, Vec3.sub, Vec3.splat]
        exact min_eq_right hl2
      · simp only [Vec3.vmin, Aabb.min, Vec3.sub, Vec3.splat]
        exact min_eq_right hl3
    · refine Vec3.ext ?_ ?_ ?_
      · simp only [Vec3.vmax, Aabb.max, Vec3.add, Vec3.splat]
        exact max_eq_right hh1
      · simp only [Vec3.vmax, Aabb.max, Vec3.add, Vec3.splat]
        exact max_eq_right hh2
      · simp only [Vec3.vmax, Aabb.max, Vec3.add, Vec3.splat]
        exact max_eq_right hh3
  · refine ⟨?_, ?_, ?_⟩
    · simp only [Vec3.sub, Vec3.splat, Aabb.min]
      have := le_abs_self he.x
      linarith
    · simp only [Vec3.sub, Vec3.splat, Aabb.min]
      have := le_abs_self he.y
      linarith
    · simp only [Vec3.sub, Vec3.splat, Aabb.min]
      have := le_abs_self he.z
      linarith
  · refine ⟨?_, ?_, ?_⟩
    · simp only [Vec3.add, Vec3.splat, Aabb.max]
      have := le_abs_self he.x
      linarith
    · simp only [Vec3.add, Vec3.splat, Aabb.max]
      have := le_abs_self he.y
      linarith
    · simp only [Vec3.add, Vec3.splat, Aabb.max]
      have := le_abs_self he.z
      linarith

/-- C5 witness: the unit box at the origin under the identity transform
yields the cube of half extent `sqrt 3`. -/
theorem single_identity_mesh_bounds_witness :
    sceneBounds [(idT, ⟨⟨0, 0, 0⟩, ⟨1, 1, 1⟩⟩)]
      = (Vec3.sub ⟨0, 0, 0⟩ (Vec3.splat (Vec3.norm ⟨1, 1, 1⟩)),
         Vec3.add ⟨0, 0, 0⟩ (Vec3.splat (Vec3.norm ⟨1, 1, 1⟩))) :=
  (single_identity_mesh_bounds ⟨0, 0, 0⟩ ⟨1, 1, 1⟩
    (by
      refine ⟨?_, ?_, ?_⟩ <;>
        · simp only [Vec3.sub, Vec3.splat]
          linarith [norm_nonneg (⟨1, 1, 1⟩ : Vec3), FMAX_nonneg])
    (by
      refine ⟨?_, ?_, ?_⟩ <;>
        · simp only [Vec3.add, Vec3.splat]
          linarith [norm_nonneg (⟨1, 1, 1⟩ : Vec3), FMAX_nonneg])).1

/-- C5 counterexample: for the unit box (half extents `(1,1,1)`) at the
origin under the identity transform, the computed world box has max corner
`sqrt 3 > 1.7` in `x`, while the local box has max corner `1`: the two
differ by far more than floating-point tolerance, so the computed box does
not equal the local one. -/
theorem single_identity_mesh_cex :
    (sceneBounds [(idT, unitAabb)]).2.x = Real.sqrt 3
      ∧ (Aabb.max unitAabb).x = 1
      ∧ (17 : ℝ) / 10 < Real.sqrt 3
      ∧ sceneBounds [(idT, unitAabb)] ≠ (Aabb.min unitAabb, Aabb.max unitAabb) := by
  have hbig : (0 : ℝ) ≤ 2 ^ 128 - 2 ^ 104 := by norm_num
  have h1 : (sceneBounds [(idT, unitAabb)]).2.x = Real.sqrt 3 := by
    simp only [sceneBounds, List.foldl_cons, List.foldl_nil, worldAabb, aabbFromSphere,
      Aabb.max, GlobalTransform.transform_point, GlobalTransform.radius_vec3a, Mat3.mulVec,
      Vec3.add, Vec3.norm, Vec3.dot, Vec3.splat, Vec3.vmax, FMAX, idT, unitAabb]
    norm_num
    linarith [Real.sqrt_nonneg (3 : ℝ)]
  have h2 : (Aabb.max unitAabb).x = 1 := by
    simp [Aabb.max, unitAabb, Vec3.add]
  have h3 : (17 : ℝ) / 10 < Real.sqrt 3 :=
    (Real.lt_sqrt (by norm_num)).mpr (by norm_num)
  have h4 : sceneBounds [(idT, unitAabb)] ≠ (Aabb.min unitAabb, Aabb.max unitAabb) := by
    intro heq
    have hproj := congrArg (fun p : Vec3 × Vec3 => p.2.x) heq
    simp only at hproj
    rw [h1, h2] at hproj
    linarith
  exact ⟨h1, h2, h3, h4⟩

example : parse_scene ("model.glb#Scene2".toList) = ("model.glb".toList, 2) := by decide
example : parse_scene ("a#b#Scene5".toList) = ("a#b".toList, 5) := by decide
example : parse_scene ("model.glb#".toList) = ("model.glb#".toList, 0) := by decide
example : parse_scene ("a#Scene+5".toList) = ("a".toList, 5) := by decide
example : parse_scene ("model.glb".toList) = ("model.glb".toList, 0) := by decide

end SceneViewer
